import Mathlib

/-!
Verification development for the openmemory MCP server
(`src/openmemory/api/app/mcp_server.py`).

The Python module is shallowly embedded: the relational ledger
(`Memory`, `MemoryStatusHistory`, `MemoryAccessLog`), the blob store
(a path-to-content map), and the vector store (a list of points) are
passed around as explicit state; the external collaborators
(`get_user_and_app`, `check_memory_access_permissions`, the mem0
client responses) are parameters of the operations, and the value a
black-box call returned is passed in directly.  Each public tool
returns the new world state together with a structured output value;
exceptions caught at an operation's boundary are modelled by the
corresponding error branch of the embedding.
-/

namespace OpenMemory

/-- `MemoryState` enum from `app.models` (states used by this core). -/
inductive MemoryState where
  | active
  | paused
  | archived
  | deleted
deriving DecidableEq, Repr

/-- The file-pointer fields written into `metadata_` during externalization
(lines 88-95 of `mcp_server.py`).  The fixed `"type": FILE_POINTER_MEMORY_TYPE`
tag is represented by the presence of this record in `Metadata.pointer`. -/
structure FilePointerData where
  originalFilename : String
  storedFilename : String
  filePathInContainer : String
  sizeBytes : Nat
  charLength : Nat
deriving DecidableEq, Repr

/-- The metadata mapping stored with a memory: the provenance fields
`source_app` / `mcp_client` are always present; the pointer fields are
present exactly when the payload was externalized. -/
structure Metadata where
  sourceApp : String
  mcpClient : String
  pointer : Option FilePointerData
deriving DecidableEq, Repr

/-- A `Memory` ledger row (`app.models.Memory`). -/
structure Mem where
  id : Nat
  userId : Nat
  appId : Nat
  content : String
  metadata : Metadata
  state : MemoryState
  updatedAt : Option Nat
  deletedAt : Option Nat
deriving DecidableEq, Repr

/-- A `MemoryStatusHistory` row. -/
structure MemoryStatusHistory where
  memoryId : Nat
  changedBy : Nat
  oldState : MemoryState
  newState : MemoryState
deriving DecidableEq, Repr

/-- A `MemoryAccessLog` row (the free-form metadata column is not needed
by any claim and is omitted). -/
structure MemoryAccessLog where
  memoryId : Nat
  appId : Nat
  accessType : String
deriving DecidableEq, Repr

/-- The relational database (committed state). -/
structure Db where
  memories : List Mem
  history : List MemoryStatusHistory
  accessLogs : List MemoryAccessLog
deriving DecidableEq, Repr

/-- A resolved user (only the primary key is used by the core). -/
structure User where
  id : Nat
deriving DecidableEq, Repr

/-- A resolved app (`App.is_active` gates ingestion). -/
structure App where
  id : Nat
  name : String
  isActive : Bool
deriving DecidableEq, Repr

/-- The ambient per-call identity (`user_id_var` / `client_name_var`).
`none` models an unset context variable; the empty string is also falsy
in the Python checks `if not uid` / `if not client_name`. -/
structure Ctx where
  uid : Option String
  clientName : Option String
deriving DecidableEq, Repr

/-- The blob store: an association list from absolute path to file
content; a write shadows earlier entries for the same path. -/
def Fs := List (String × String)
deriving DecidableEq, Repr

/-- A point in the qdrant vector store, with the payload fields the
search path reads. -/
structure VPoint where
  id : Nat
  userId : String
  data : String
  hash : Option String
  createdAt : Option String
  updatedAt : Option String
  score : Int
deriving DecidableEq, Repr

/-- The whole mutable world an operation can touch: relational DB,
blob store, vector store. -/
structure World where
  db : Db
  fs : Fs
  store : List VPoint
deriving DecidableEq, Repr

/-- One element of `memory_client.add(...)["results"]`: `id` and
`memory` may be missing (modelled by `none`; the code also treats an
empty `memory` string as missing via Python truthiness), `event` is a
raw string tag. -/
structure Mem0Result where
  id : Option Nat
  memory : Option String
  event : String
deriving DecidableEq, Repr

/-- One element of `memory_client.get_all(...)` results, with the
fields `list_memories` / `get_last_memory` read. -/
structure Mem0Item where
  id : Option Nat
  createdAt : String
  hash : Option String
  data : String
deriving DecidableEq, Repr

/-- One processed hit returned by `search_memory`. -/
structure SearchHit where
  id : Nat
  memory : String
  hash : Option String
  createdAt : Option String
  updatedAt : Option String
  score : Int
deriving DecidableEq, Repr

/-- The result a public operation returns to the caller.
`errJson m` models `json.dumps({"error": m}, indent=2)`;
`msgJson m` models `json.dumps({"message": m}, indent=2)`;
`plain s` models a bare (non-JSON) string return. -/
inductive Out where
  | errJson (msg : String)
  | msgJson (msg : String)
  | addResp (resp : Option (List Mem0Result))
  | searchHits (hits : List SearchHit)
  | listItems (items : List Mem0Item)
  | fileContent (originalFilename storedFilename content : String)
      (memId : Nat) (ptr : FilePointerData)
  | memItem (item : Mem0Item)
  | plain (s : String)
deriving DecidableEq, Repr

/-- Python truthiness of the `Optional[str]` argument
`original_filename`: `None` and `""` are falsy. -/
def truthy : Option String → Bool
  | none => false
  | some s => s ≠ ""

/-- `FILE_CONTENT_THRESHOLD` (line 45). -/
def FILE_CONTENT_THRESHOLD : Nat := 4000

/-- `FILE_STORAGE_BASE_PATH` (line 44). -/
def FILE_STORAGE_BASE_PATH : String := "/usr/src/openmemory/user_files"

/-- Split a character list at every literal slash (the POSIX path
separator), keeping empty components. -/
def splitSlash : List Char → List (List Char)
  | [] => [[]]
  | c :: cs =>
    let r := splitSlash cs
    if c = '/' then [] :: r
    else
      match r with
      | [] => [[c]]
      | p :: ps => (c :: p) :: ps

/-- `pathlib.PurePosixPath(s).name`: drop empty and `"."` components
(pathlib normalizes them away), return the last remaining component,
or `""` if none remains.  `".."` components are kept, as in pathlib. -/
def posixName (s : String) : String :=
  let parts := (splitSlash s.data).filter (fun p => !p.isEmpty && p ≠ ['.'])
  ⟨parts.getLastD []⟩

/-- Read a file from the blob store. -/
def fsRead (fs : Fs) (p : String) : Option String :=
  ((fs : List (String × String)).find? (fun e => e.1 == p)).map (·.2)

/-- The outcome of the inline-vs-externalize decision of
`add_memories` (lines 67-98): the text handed to the mem0 client, the
metadata to store, and the blob store after the (possible) file write. -/
structure Prepared where
  textToStore : String
  meta : Metadata
  fs : Fs
deriving DecidableEq, Repr

/-- Lines 67-98 of `add_memories`: decide whether to externalize the
payload; on externalization synthesize the stored filename from the
fresh uuid (`freshId`) and the sanitized original filename, write the
full text to the per-user directory, and replace the ingested text by
a short description. -/
def prepare (uid clientName text : String) (originalFilename : Option String)
    (freshId : String) (fs : Fs) : Prepared :=
  let baseMeta : Metadata :=
    { sourceApp := "openmemory", mcpClient := clientName, pointer := none }
  if truthy originalFilename || text.length > FILE_CONTENT_THRESHOLD then
    let actualOriginalFilename :=
      match originalFilename with
      | some s => if s = "" then "large_text.txt" else s
      | none => "large_text.txt"
    let saneOriginalFilename := posixName actualOriginalFilename
    let storedFilename := freshId ++ "_" ++ saneOriginalFilename
    let filePath :=
      FILE_STORAGE_BASE_PATH ++ "/" ++ uid ++ "/" ++ storedFilename
    let ptr : FilePointerData :=
      { originalFilename := actualOriginalFilename
        storedFilename := storedFilename
        filePathInContainer := filePath
        sizeBytes := text.utf8ByteSize
        charLength := text.length }
    { textToStore := "Stored file: " ++ actualOriginalFilename ++ " (Content pointer)"
      meta := { baseMeta with pointer := some ptr }
      fs := (filePath, text) :: fs }
  else
    { textToStore := text, meta := baseMeta, fs := fs }

/-- Lines 108-180: fold one mem0 result into the ledger.  Results with
a falsy `id` or `memory` are skipped (line 110); `ADD` creates or
reactivates the row, `UPDATE` updates it or defensively creates it,
any other tag is skipped; every non-skipped branch appends exactly one
`MemoryStatusHistory` row. -/
def processResult (userId appId : Nat) (meta : Metadata) (now : Nat)
    (db : Db) (r : Mem0Result) : Db :=
  match r.id with
  | none => db
  | some mid =>
    match r.memory with
    | none => db
    | some content =>
      if content = "" then db
      else
        let sqlMemory? := db.memories.find? (fun m => m.id == mid)
        if r.event = "ADD" then
          match sqlMemory? with
          | none =>
            { db with
              memories := db.memories ++
                [{ id := mid, userId := userId, appId := appId,
                   content := content, metadata := meta,
                   state := .active, updatedAt := none, deletedAt := none }]
              history := db.history ++
                [{ memoryId := mid, changedBy := userId,
                   oldState := .deleted, newState := .active }] }
          | some m =>
            { db with
              memories := db.memories.map (fun x =>
                if x.id == mid then
                  { x with state := .active, content := content,
                           metadata := meta, updatedAt := some now }
                else x)
              history := db.history ++
                [{ memoryId := mid, changedBy := userId,
                   oldState := m.state, newState := .active }] }
        else if r.event = "UPDATE" then
          match sqlMemory? with
          | some m =>
            { db with
              memories := db.memories.map (fun x =>
                if x.id == mid then
                  { x with state := .active, content := content,
                           metadata := meta, updatedAt := some now }
                else x)
              history := db.history ++
                [{ memoryId := mid, changedBy := userId,
                   oldState := m.state, newState := .active }] }
          | none =>
            { db with
              memories := db.memories ++
                [{ id := mid, userId := userId, appId := appId,
                   content := content, metadata := meta,
                   state := .active, updatedAt := none, deletedAt := none }]
              history := db.history ++
                [{ memoryId := mid, changedBy := userId,
                   oldState := .deleted, newState := .active }] }
        else db

/-- A mem0 result that the reconciliation loop does not skip: it has a
truthy `id` and `memory` and its event tag is `ADD` or `UPDATE`. -/
def reconcilable (r : Mem0Result) : Bool :=
  r.id.isSome && r.memory.getD "" ≠ "" &&
    (r.event == "ADD" || r.event == "UPDATE")

/-- `add_memories(text, original_filename)` (lines 48-194).
`resolve` models `get_user_and_app`; `resp` is the value
`memory_client.add(...)` returned for this call, `Except.error`
modelling a raised exception; `freshId` is the `uuid.uuid4()` drawn
for the stored filename; `now` the current timestamp.  On an
exception the DB session is rolled back (the committed DB is
unchanged) but a file already written stays on disk. -/
def add_memories (resolve : String → String → Option (User × App))
    (ctx : Ctx) (w : World) (text : String)
    (originalFilename : Option String) (freshId : String) (now : Nat)
    (resp : Except String (Option (List Mem0Result))) : World × Out :=
  match ctx.uid with
  | none => (w, .errJson "user_id not provided")
  | some u =>
    if u = "" then (w, .errJson "user_id not provided")
    else
      match ctx.clientName with
      | none => (w, .errJson "client_name not provided")
      | some c =>
        if c = "" then (w, .errJson "client_name not provided")
        else
          match resolve u c with
          | none => (w, .errJson "User or App context not found")
          | some (user, app) =>
            if !app.isActive then
              (w, .errJson ("App " ++ app.name ++ " is currently paused."))
            else
              let p := prepare u c text originalFilename freshId w.fs
              match resp with
              | .error e =>
                ({ w with fs := p.fs },
                 .errJson ("Error adding memory: " ++ e))
              | .ok none => ({ w with fs := p.fs }, .addResp none)
              | .ok (some rs) =>
                let db' :=
                  rs.foldl (processResult user.id app.id p.meta now) w.db
                ({ w with db := db', fs := p.fs }, .addResp (some rs))

/-- The qdrant filter `search_memory` builds: a mandatory
`user_id` field condition, plus an id restriction that is only present
when the accessible id list was non-empty (lines 215-222). -/
structure QFilter where
  userId : String
  idRestrict : Option (List Nat)
deriving DecidableEq, Repr

/-- Whether a stored point satisfies the filter's `must` conditions. -/
def matchesFilter (f : QFilter) (p : VPoint) : Bool :=
  p.userId == f.userId &&
    (match f.idRestrict with
     | none => true
     | some ids => ids.contains p.id)

/-- `client.query_points(..., query_filter=filters, limit=10)`: up to
`limit` points satisfying the filter (similarity ranking is the vector
store's concern; the model returns them in store order). -/
def query_points (store : List VPoint) (f : QFilter) (limit : Nat) :
    List VPoint :=
  (store.filter (matchesFilter f)).take limit

/-- Models `str(e)` of the `AttributeError` raised when
`get_user_and_app` yields no user and the code dereferences `user.id`
(the operations without an explicit user/app check). -/
def attributeErrorMsg : String := "NoneType object has no attribute id"

/-- The accessible-identifier computation shared by `search_memory`,
`list_memories` and `delete_all_memories`: the ids of the user's
ledger rows that pass `check_memory_access_permissions` (`acl`). -/
def accessibleIds (acl : Mem → Nat → Bool) (db : Db) (userId appId : Nat) :
    List Nat :=
  ((db.memories.filter (fun m => m.userId == userId)).filter
    (fun m => acl m appId)).map (·.id)

/-- `search_memory(query)` (lines 197-286).  The processed hit list is
always a Python list, so the live logging branch is the
`else` arm (lines 265-280): one `search` access-log row per hit. -/
def search_memory (resolve : String → String → Option (User × App))
    (acl : Mem → Nat → Bool) (ctx : Ctx) (w : World) (query : String) :
    World × Out :=
  match ctx.uid with
  | none => (w, .plain "Error: user_id not provided")
  | some u =>
    if u = "" then (w, .plain "Error: user_id not provided")
    else
      match ctx.clientName with
      | none => (w, .plain "Error: client_name not provided")
      | some c =>
        if c = "" then (w, .plain "Error: client_name not provided")
        else
          match resolve u c with
          | none =>
            (w, .plain ("Error searching memory: " ++ attributeErrorMsg))
          | some (user, app) =>
            let accessible := accessibleIds acl w.db user.id app.id
            let filters : QFilter :=
              { userId := u
                idRestrict :=
                  if accessible.isEmpty then none else some accessible }
            let hits := query_points w.store filters 10
            let memories := hits.map (fun p =>
              ({ id := p.id, memory := p.data, hash := p.hash,
                 createdAt := p.createdAt, updatedAt := p.updatedAt,
                 score := p.score } : SearchHit))
            let logs := memories.map (fun h =>
              ({ memoryId := h.id, appId := app.id,
                 accessType := "search" } : MemoryAccessLog))
            ({ w with db :=
                { w.db with accessLogs := w.db.accessLogs ++ logs } },
             .searchHits memories)

/-- `list_memories()` (lines 289-348).  `items` is the result list of
`memory_client.get_all(user_id=uid)` (the modern dict-shaped response;
items without an `id` are dropped). -/
def list_memories (resolve : String → String → Option (User × App))
    (acl : Mem → Nat → Bool) (ctx : Ctx) (w : World)
    (items : List Mem0Item) : World × Out :=
  match ctx.uid with
  | none => (w, .plain "Error: user_id not provided")
  | some u =>
    if u = "" then (w, .plain "Error: user_id not provided")
    else
      match ctx.clientName with
      | none => (w, .plain "Error: client_name not provided")
      | some c =>
        if c = "" then (w, .plain "Error: client_name not provided")
        else
          match resolve u c with
          | none =>
            (w, .plain ("Error getting memories: " ++ attributeErrorMsg))
          | some (user, app) =>
            let accessible := accessibleIds acl w.db user.id app.id
            let selected := items.filter (fun it =>
              match it.id with
              | none => false
              | some mid => accessible.contains mid)
            let logs := selected.map (fun it =>
              ({ memoryId := it.id.getD 0, appId := app.id,
                 accessType := "list" } : MemoryAccessLog))
            ({ w with db :=
                { w.db with accessLogs := w.db.accessLogs ++ logs } },
             .listItems selected)

/-- Stable insertion into a list already sorted descending by
`createdAt` (placing `x` before `y` exactly when `y`'s key is ≤ `x`'s
keeps the original relative order of equal keys, matching Python's
stable `list.sort(key=..., reverse=True)`). -/
def insertByCreatedDesc (x : Mem0Item) : List Mem0Item → List Mem0Item
  | [] => [x]
  | y :: ys =>
    if y.createdAt < x.createdAt ∨ y.createdAt = x.createdAt then
      x :: y :: ys
    else y :: insertByCreatedDesc x ys

/-- `memories_list.sort(key=lambda x: x.get('created_at', ''),
reverse=True)` — the unique stable descending sort by `created_at`. -/
def sortByCreatedDesc : List Mem0Item → List Mem0Item
  | [] => []
  | x :: xs => insertByCreatedDesc x (sortByCreatedDesc xs)

/-- Whether the `get_last_memory` loop stops at this item (lines
380-391): the item has an id, the ledger has a row with that id owned
by the user, and the row passes the Access Control Filter; on success
returns the id and the ledger row. -/
def selectItem (db : Db) (acl : Mem → Nat → Bool) (userId appId : Nat)
    (it : Mem0Item) : Option (Nat × Mem) :=
  match it.id with
  | none => none
  | some mid =>
    match db.memories.find? (fun m => m.id == mid && m.userId == userId) with
    | none => none
    | some m => if acl m appId then some (mid, m) else none

/-- Universal-newline translation performed by a Python text-mode
read with the default `newline=None`: every `"\r\n"` sequence and
every lone `'\r'` becomes `'\n'`.  The Boolean carries whether the
previous character was a `'\r'` (so a following `'\n'` is absorbed
into the already-emitted `'\n'`). -/
def univNewlinesAux : Bool → List Char → List Char
  | _, [] => []
  | prevCR, c :: cs =>
    if c = '\r' then '\n' :: univNewlinesAux true cs
    else if c = '\n' then
      if prevCR then univNewlinesAux false cs
      else '\n' :: univNewlinesAux false cs
    else c :: univNewlinesAux false cs

/-- The content returned by `open(path, 'r', encoding='utf-8').read()`
(lines 410-411) for a file whose stored content is `s`: Python's
universal-newlines mode translates `"\r\n"` and lone `'\r'` to
`'\n'`.  (The write at lines 85-86 is the identity on Linux, where
`os.linesep` is `'\n'`.) -/
def universalNewlines (s : String) : String :=
  ⟨univNewlinesAux false s.data⟩

/-- Lines 400-432: resolve the selected memory — if its stored
metadata marks it as a file pointer, try to read the backing file and
return its content as the text-mode read delivers it (universal-newline
translated); on a missing or unreadable file fall back to returning
the mem0 record itself. -/
def resolvePointer (fs : Fs) (m : Mem) (it : Mem0Item) (mid : Nat) : Out :=
  match m.metadata.pointer with
  | some ptr =>
    match fsRead fs ptr.filePathInContainer with
    | some content =>
      .fileContent ptr.originalFilename ptr.storedFilename
        (universalNewlines content) mid ptr
    | none => .memItem it
  | none => .memItem it

/-- The iteration of `get_last_memory` over the sorted mem0 items
(lines 380-435): skip items without a usable id, skip items whose
ledger row is absent or inaccessible; at the first selectable item log
a `get_last_pointer_check` access and return the resolved result. -/
def getLastLoop (db : Db) (acl : Mem → Nat → Bool) (fs : Fs)
    (userId appId : Nat) : List Mem0Item → List MemoryAccessLog × Out
  | [] => ([], .msgJson "No accessible recent memories found")
  | it :: rest =>
    match selectItem db acl userId appId it with
    | none => getLastLoop db acl fs userId appId rest
    | some (mid, m) =>
      ([{ memoryId := mid, appId := appId,
          accessType := "get_last_pointer_check" }],
       resolvePointer fs m it mid)

/-- `get_last_memory()` (lines 351-440).  `items` is the list
extracted from `memory_client.get_all(user_id=uid)`. -/
def get_last_memory (resolve : String → String → Option (User × App))
    (acl : Mem → Nat → Bool) (ctx : Ctx) (w : World)
    (items : List Mem0Item) : World × Out :=
  match ctx.uid with
  | none => (w, .errJson "user_id not provided")
  | some u =>
    if u = "" then (w, .errJson "user_id not provided")
    else
      match ctx.clientName with
      | none => (w, .errJson "client_name not provided")
      | some c =>
        if c = "" then (w, .errJson "client_name not provided")
        else
          match resolve u c with
          | none => (w, .errJson "User or App context not found")
          | some (user, app) =>
            if items.isEmpty then (w, .msgJson "No memories found")
            else
              let sorted := sortByCreatedDesc items
              let r := getLastLoop w.db acl w.fs user.id app.id sorted
              ({ w with db :=
                  { w.db with accessLogs := w.db.accessLogs ++ r.1 } },
               r.2)

/-- The per-identifier body of the `delete_all_memories` loop (lines
466-488): flip the row's state to `deleted`, set `deleted_at`, append
one `active` → `deleted` history row and one `delete_all` access-log
row.  (The memory id is a primary key, so updating every row matching
the id is the same as updating `query(...).first()`.) -/
def deleteOne (userId appId now : Nat) (db : Db) (mid : Nat) : Db :=
  { memories := db.memories.map (fun m =>
      if m.id == mid then
        { m with state := .deleted, deletedAt := some now }
      else m)
    history := db.history ++
      [{ memoryId := mid, changedBy := userId,
         oldState := .active, newState := .deleted }]
    accessLogs := db.accessLogs ++
      [{ memoryId := mid, appId := appId, accessType := "delete_all" }] }

/-- `delete_all_memories()` (lines 443-495): compute the accessible id
set, delete each id from the vector store, then apply `deleteOne` per
id and commit; the blob store is never touched. -/
def delete_all_memories (resolve : String → String → Option (User × App))
    (acl : Mem → Nat → Bool) (now : Nat) (ctx : Ctx) (w : World) :
    World × Out :=
  match ctx.uid with
  | none => (w, .plain "Error: user_id not provided")
  | some u =>
    if u = "" then (w, .plain "Error: user_id not provided")
    else
      match ctx.clientName with
      | none => (w, .plain "Error: client_name not provided")
      | some c =>
        if c = "" then (w, .plain "Error: client_name not provided")
        else
          match resolve u c with
          | none =>
            (w, .plain ("Error deleting memories: " ++ attributeErrorMsg))
          | some (user, app) =>
            let accessible := accessibleIds acl w.db user.id app.id
            let store' :=
              w.store.filter (fun p => !accessible.contains p.id)
            let db' := accessible.foldl (deleteOne user.id app.id now) w.db
            ({ db := db', fs := w.fs, store := store' },
             .plain "Successfully deleted all memories")

/-! ### Helper lemmas -/

theorem data_append (a b : String) : (a ++ b).data = a.data ++ b.data := rfl

theorem splitSlash_no_slash :
    ∀ (cs : List Char), ∀ p ∈ splitSlash cs, '/' ∉ p := by
  intro cs
  induction cs with
  | nil =>
    intro p hp
    simp [splitSlash] at hp
    simp [hp]
  | cons c cs ih =>
    intro p hp
    by_cases hc : c = '/'
    · simp [splitSlash, hc] at hp
      rcases hp with hp | hp
      · simp [hp]
      · exact ih p hp
    · simp only [splitSlash, if_neg hc] at hp
      rcases hr : splitSlash cs with _ | ⟨q, qs⟩
      · rw [hr] at hp
        simp at hp
        subst hp
        intro hmem
        rcases List.mem_singleton.mp hmem with h
        exact hc h.symm
      · rw [hr] at hp
        simp at hp
        rcases hp with hp | hp
        · subst hp
          intro hmem
          rcases List.mem_cons.mp hmem with h | h
          · exact hc h.symm
          · exact ih q (by rw [hr]; exact List.mem_cons_self _ _) h
        · exact ih p (by rw [hr]; exact List.mem_cons_of_mem _ hp)

theorem getLastD_no_slash (l : List (List Char))
    (h : ∀ p ∈ l, '/' ∉ p) : '/' ∉ l.getLastD [] := by
  cases l with
  | nil => simp [List.getLastD]
  | cons q qs =>
    rw [List.getLastD_eq_getLast?, List.getLast?_eq_getLast _ (by simp)]
    exact h _ (List.getLast_mem _)

theorem posixName_no_slash (s : String) : '/' ∉ (posixName s).data := by
  show '/' ∉
    (((splitSlash s.data).filter (fun p => !p.isEmpty && p ≠ ['.'])).getLastD [])
  apply getLastD_no_slash
  intro p hp
  exact splitSlash_no_slash s.data p (List.mem_filter.mp hp).1

theorem find?_append_of_none {α : Type} (p : α → Bool) (l₁ l₂ : List α)
    (h : l₁.find? p = none) : (l₁ ++ l₂).find? p = l₂.find? p := by
  simp [List.find?_append, h]

theorem processResult_history_length (userId appId : Nat) (meta : Metadata)
    (now : Nat) (db : Db) (r : Mem0Result) :
    (processResult userId appId meta now db r).history.length =
      db.history.length + (if reconcilable r then 1 else 0) := by
  rcases r with ⟨io, mo, ev⟩
  cases io with
  | none => simp [processResult, reconcilable]
  | some mid =>
    cases mo with
    | none => simp [processResult, reconcilable]
    | some content =>
      by_cases hcont : content = ""
      · simp [processResult, reconcilable, hcont]
      · by_cases ha : ev = "ADD"
        · rcases hfind : db.memories.find? (fun m => m.id == mid) with _ | m <;>
            simp [processResult, reconcilable, hcont, ha, hfind]
        · by_cases hupd : ev = "UPDATE"
          · rcases hfind : db.memories.find? (fun m => m.id == mid) with _ | m <;>
              simp [processResult, reconcilable, hcont, ha, hupd, hfind]
          · simp [processResult, reconcilable, hcont, ha, hupd]

theorem processAll_history_length (userId appId : Nat) (meta : Metadata)
    (now : Nat) :
    ∀ (rs : List Mem0Result) (db : Db),
      ((rs.foldl (processResult userId appId meta now) db).history).length =
        db.history.length + (rs.filter reconcilable).length := by
  intro rs
  induction rs with
  | nil => intro db; simp
  | cons r rs ih =>
    intro db
    rw [List.foldl_cons, ih, processResult_history_length]
    by_cases h : reconcilable r <;> simp [h] <;> omega

theorem foldl_deleteOne_memories (userId appId now : Nat) :
    ∀ (ids : List Nat) (db : Db),
      (ids.foldl (deleteOne userId appId now) db).memories =
        db.memories.map (fun m =>
          if ids.contains m.id then
            { m with state := .deleted, deletedAt := some now }
          else m) := by
  intro ids
  induction ids with
  | nil => intro db; simp
  | cons i ids ih =>
    intro db
    rw [List.foldl_cons, ih]
    show (deleteOne userId appId now db i).memories.map _ = _
    rw [deleteOne]
    rw [List.map_map]
    apply List.map_congr_left
    intro m _
    simp only [Function.comp_apply]
    by_cases hmi : m.id = i
    · have hb : (m.id == i) = true := beq_iff_eq.mpr hmi
      rcases hin : ids.contains m.id with _ | _ <;>
        simp [hb, hin, hmi, List.contains_cons]
    · have hb : (m.id == i) = false := beq_eq_false_iff_ne.mpr hmi
      simp [hb, hmi, List.contains_cons]

theorem foldl_deleteOne_history (userId appId now : Nat) :
    ∀ (ids : List Nat) (db : Db),
      (ids.foldl (deleteOne userId appId now) db).history =
        db.history ++ ids.map (fun i =>
          { memoryId := i, changedBy := userId,
            oldState := .active, newState := .deleted }) := by
  intro ids
  induction ids with
  | nil => intro db; simp
  | cons i ids ih =>
    intro db
    rw [List.foldl_cons, ih]
    show (deleteOne userId appId now db i).history ++ _ = _
    rw [deleteOne]
    simp

theorem foldl_deleteOne_logs (userId appId now : Nat) :
    ∀ (ids : List Nat) (db : Db),
      (ids.foldl (deleteOne userId appId now) db).accessLogs =
        db.accessLogs ++ ids.map (fun i =>
          { memoryId := i, appId := appId, accessType := "delete_all" }) := by
  intro ids
  induction ids with
  | nil => intro db; simp
  | cons i ids ih =>
    intro db
    rw [List.foldl_cons, ih]
    show (deleteOne userId appId now db i).accessLogs ++ _ = _
    rw [deleteOne]
    simp

theorem getLastLoop_skip (db : Db) (acl : Mem → Nat → Bool) (fs : Fs)
    (userId appId : Nat) (it : Mem0Item) (rest : List Mem0Item)
    (h : selectItem db acl userId appId it = none) :
    getLastLoop db acl fs userId appId (it :: rest) =
      getLastLoop db acl fs userId appId rest := by
  simp only [getLastLoop, h]

theorem getLastLoop_append_skip (db : Db) (acl : Mem → Nat → Bool) (fs : Fs)
    (userId appId : Nat) :
    ∀ (pre rest : List Mem0Item),
      (∀ j ∈ pre, selectItem db acl userId appId j = none) →
      getLastLoop db acl fs userId appId (pre ++ rest) =
        getLastLoop db acl fs userId appId rest := by
  intro pre
  induction pre with
  | nil => intro rest _; rfl
  | cons j js ih =>
    intro rest h
    rw [List.cons_append,
      getLastLoop_skip db acl fs userId appId j (js ++ rest)
        (h j (List.mem_cons_self _ _))]
    exact ih rest (fun x hx => h x (List.mem_cons_of_mem _ hx))

theorem selectItem_eq_some (db : Db) (acl : Mem → Nat → Bool)
    (userId appId : Nat) (it : Mem0Item) (mid : Nat) (m : Mem)
    (hid : it.id = some mid)
    (hfind : db.memories.find? (fun x => x.id == mid && x.userId == userId) =
      some m)
    (hacl : acl m appId = true) :
    selectItem db acl userId appId it = some (mid, m) := by
  simp only [selectItem, hid, hfind, hacl, if_true]

theorem getLastLoop_select (db : Db) (acl : Mem → Nat → Bool) (fs : Fs)
    (userId appId : Nat) (it : Mem0Item) (rest : List Mem0Item)
    (mid : Nat) (m : Mem)
    (h : selectItem db acl userId appId it = some (mid, m)) :
    getLastLoop db acl fs userId appId (it :: rest) =
      ([{ memoryId := mid, appId := appId,
          accessType := "get_last_pointer_check" }],
       resolvePointer fs m it mid) := by
  simp only [getLastLoop, h]

theorem univNewlinesAux_false_cons (c : Char) (cs : List Char)
    (hc : c ≠ '\r') :
    univNewlinesAux false (c :: cs) = c :: univNewlinesAux false cs := by
  by_cases hn : c = '\n'
  · subst hn
    simp [univNewlinesAux]
  · simp [univNewlinesAux, if_neg hc, if_neg hn]

theorem univNewlinesAux_eq_self :
    ∀ (cs : List Char), '\r' ∉ cs → univNewlinesAux false cs = cs := by
  intro cs
  induction cs with
  | nil => intro _; rfl
  | cons c cs ih =>
    intro h
    have hc : c ≠ '\r' := by
      intro hh
      exact h (hh ▸ List.mem_cons_self _ _)
    rw [univNewlinesAux_false_cons c cs hc,
      ih (fun hh => h (List.mem_cons_of_mem _ hh))]

theorem universalNewlines_eq_self (s : String) (h : '\r' ∉ s.data) :
    universalNewlines s = s := by
  unfold universalNewlines
  rw [univNewlinesAux_eq_self s.data h]

theorem prepare_ext (u c text : String) (ofn : Option String)
    (freshId : String) (fs : Fs)
    (hext : (truthy ofn || text.length > FILE_CONTENT_THRESHOLD) = true) :
    ∃ ptr, (prepare u c text ofn freshId fs).meta.pointer = some ptr ∧
      (prepare u c text ofn freshId fs).fs =
        (ptr.filePathInContainer, text) :: fs ∧
      (prepare u c text ofn freshId fs).textToStore =
        "Stored file: " ++ ptr.originalFilename ++ " (Content pointer)" ∧
      ptr.sizeBytes = text.utf8ByteSize ∧
      ptr.charLength = text.length := by
  unfold prepare
  simp only [hext, if_true]
  exact ⟨_, rfl, rfl, rfl, rfl, rfl⟩

/-! ### Concrete fixtures for counterexamples and witnesses -/

def resolve1 : String → String → Option (User × App) :=
  fun _ _ => some (⟨1⟩, ⟨7, "app1", true⟩)

def aclDenyAll : Mem → Nat → Bool := fun _ _ => false

def aclAllowAll : Mem → Nat → Bool := fun _ _ => true

def mem5 : Mem :=
  { id := 5, userId := 1, appId := 7, content := "secret",
    metadata := { sourceApp := "openmemory", mcpClient := "app1",
                  pointer := none },
    state := .active, updatedAt := none, deletedAt := none }

def w1 : World :=
  { db := { memories := [mem5], history := [], accessLogs := [] }
    fs := []
    store := [{ id := 5, userId := "u1", data := "secret data",
                hash := none, createdAt := none, updatedAt := none,
                score := 3 }] }

def ctx1 : Ctx := ⟨some "u1", some "app1"⟩

def ctxNoUid : Ctx := ⟨none, some "app1"⟩

/-! ### Claim theorems -/

/-- C1: the claim says that a memory for which the Access Control
Filter returns false never appears in results and is never
access-logged, the similarity query being restricted to the accessible
set even when that set is empty.  The code violates this: when the
accessible id list is empty, `search_memory` omits the
`HasIdCondition` entirely (line 217's `if accessible_memory_ids:`), so
the query runs restricted only by `user_id`; here the filter denies
everything, yet the denied memory id 5 is returned as a hit and a
`search` access-log row is written for it. -/
theorem c1_acl_bypass_on_empty_accessible_set :
    aclDenyAll mem5 7 = false ∧
    (search_memory resolve1 aclDenyAll ctx1 w1 "any query").2 =
      .searchHits [{ id := 5, memory := "secret data", hash := none,
                     createdAt := none, updatedAt := none, score := 3 }] ∧
    (search_memory resolve1 aclDenyAll ctx1 w1 "any query").1.db.accessLogs =
      [{ memoryId := 5, appId := 7, accessType := "search" }] := by
  refine ⟨rfl, rfl, rfl⟩

/-- C10: every `search_memory` result contains at most 10 hits, since
the similarity query is issued with `limit=10`. -/
theorem c10_search_limit_ten (resolve : String → String → Option (User × App))
    (acl : Mem → Nat → Bool) (ctx : Ctx) (w : World) (q : String)
    (hits : List SearchHit)
    (h : (search_memory resolve acl ctx w q).2 = .searchHits hits) :
    hits.length ≤ 10 := by
  rcases ctx with ⟨uo, co⟩
  cases uo with
  | none => simp [search_memory] at h
  | some u =>
    by_cases hu : u = ""
    · simp [search_memory, hu] at h
    · cases co with
      | none => simp [search_memory, hu] at h
      | some c =>
        by_cases hc : c = ""
        · simp [search_memory, hu, hc] at h
        · rcases hres : resolve u c with _ | ⟨user, app⟩
          · simp [search_memory, hu, hc, hres] at h
          · simp only [search_memory, hu, hc, hres] at h
            simp at h
            rw [← h]
            simp only [List.length_map, query_points, List.length_take]
            omega

/-- Witness for C10 at a concrete input. -/
theorem c10_witness :
    (search_memory resolve1 aclAllowAll ctx1 w1 "q10").2 =
      .searchHits [{ id := 5, memory := "secret data", hash := none,
                     createdAt := none, updatedAt := none, score := 3 }] ∧
    ([{ id := 5, memory := "secret data", hash := none,
        createdAt := none, updatedAt := none,
        score := 3 }] : List SearchHit).length ≤ 10 :=
  ⟨rfl, c10_search_limit_ten resolve1 aclAllowAll ctx1 w1 "q10" _ rfl⟩

/-- Output shape of `add_memories`: always indented JSON (an error
object or the serialized mem0 response); never a bare string. -/
theorem add_out_shape (resolve : String → String → Option (User × App))
    (ctx : Ctx) (w : World) (text : String) (ofn : Option String)
    (freshId : String) (now : Nat)
    (resp : Except String (Option (List Mem0Result))) :
    (∃ m, (add_memories resolve ctx w text ofn freshId now resp).2 =
        .errJson m) ∨
    (∃ r, (add_memories resolve ctx w text ofn freshId now resp).2 =
        .addResp r) := by
  rcases ctx with ⟨uo, co⟩
  cases uo with
  | none => exact Or.inl ⟨_, rfl⟩
  | some u =>
    by_cases hu : u = ""
    · left; simp only [add_memories, hu, if_true]; exact ⟨_, rfl⟩
    · cases co with
      | none => left; simp only [add_memories, if_neg hu]; exact ⟨_, rfl⟩
      | some c =>
        by_cases hc : c = ""
        · left; simp only [add_memories, if_neg hu, hc, if_true]
          exact ⟨_, rfl⟩
        · rcases hres : resolve u c with _ | ⟨user, app⟩
          · left; simp only [add_memories, if_neg hu, if_neg hc, hres]
            exact ⟨_, rfl⟩
          · rcases hact : app.isActive with _ | _
            · left
              simp only [add_memories, if_neg hu, if_neg hc, hres, hact,
                Bool.not_false, if_true]
              exact ⟨_, rfl⟩
            · rcases resp with e | ro
              · left
                simp only [add_memories, if_neg hu, if_neg hc, hres, hact,
                  Bool.not_true, if_false]
                exact ⟨_, rfl⟩
              · rcases ro with _ | rs
                · right
                  simp only [add_memories, if_neg hu, if_neg hc, hres, hact,
                    Bool.not_true, if_false]
                  exact ⟨_, rfl⟩
                · right
                  simp only [add_memories, if_neg hu, if_neg hc, hres, hact,
                    Bool.not_true, if_false]
                  exact ⟨_, rfl⟩

/-- Output shape of the `get_last_memory` iteration. -/
theorem getLastLoop_out_shape (db : Db) (acl : Mem → Nat → Bool) (fs : Fs)
    (userId appId : Nat) :
    ∀ items : List Mem0Item,
      ((getLastLoop db acl fs userId appId items).2 =
        .msgJson "No accessible recent memories found") ∨
      (∃ a b content mid ptr,
        (getLastLoop db acl fs userId appId items).2 =
          .fileContent a b content mid ptr) ∨
      (∃ it, (getLastLoop db acl fs userId appId items).2 = .memItem it) := by
  intro items
  induction items with
  | nil => exact Or.inl rfl
  | cons it rest ih =>
    rcases hsel : selectItem db acl userId appId it with _ | ⟨mid, m⟩
    · rw [getLastLoop_skip db acl fs userId appId it rest hsel]
      exact ih
    · rw [getLastLoop_select db acl fs userId appId it rest mid m hsel]
      rcases hp : m.metadata.pointer with _ | ptr
      · exact Or.inr (Or.inr ⟨it, by simp [resolvePointer, hp]⟩)
      · rcases hread : fsRead fs ptr.filePathInContainer with _ | content
        · exact Or.inr (Or.inr ⟨it, by simp [resolvePointer, hp, hread]⟩)
        · exact Or.inr (Or.inl ⟨ptr.originalFilename, ptr.storedFilename,
            universalNewlines content, mid, ptr,
            by simp [resolvePointer, hp, hread]⟩)

/-- Output shape of `get_last_memory`: always indented JSON. -/
theorem get_last_out_shape (resolve : String → String → Option (User × App))
    (acl : Mem → Nat → Bool) (ctx : Ctx) (w : World)
    (items : List Mem0Item) :
    (∃ m, (get_last_memory resolve acl ctx w items).2 = .errJson m) ∨
    (∃ m, (get_last_memory resolve acl ctx w items).2 = .msgJson m) ∨
    (∃ a b content mid ptr,
      (get_last_memory resolve acl ctx w items).2 =
        .fileContent a b content mid ptr) ∨
    (∃ it, (get_last_memory resolve acl ctx w items).2 = .memItem it) := by
  rcases ctx with ⟨uo, co⟩
  cases uo with
  | none => exact Or.inl ⟨_, rfl⟩
  | some u =>
    by_cases hu : u = ""
    · left; refine ⟨"user_id not provided", ?_⟩; simp [get_last_memory, hu]
    · cases co with
      | none =>
        left; refine ⟨"client_name not provided", ?_⟩
        simp [get_last_memory, hu]
      | some c =>
        by_cases hc : c = ""
        · left; refine ⟨"client_name not provided", ?_⟩
          simp [get_last_memory, hu, hc]
        · rcases hres : resolve u c with _ | ⟨user, app⟩
          · left; refine ⟨"User or App context not found", ?_⟩
            simp [get_last_memory, hu, hc, hres]
          · rcases hemp : items.isEmpty with _ | _
            · have hshape := getLastLoop_out_shape w.db acl w.fs user.id app.id
                (sortByCreatedDesc items)
              have heq : (get_last_memory resolve acl ⟨some u, some c⟩ w items).2 =
                  (getLastLoop w.db acl w.fs user.id app.id
                    (sortByCreatedDesc items)).2 := by
                simp [get_last_memory, hu, hc, hres, hemp]
              rw [heq]
              rcases hshape with h | h | h
              · exact Or.inr (Or.inl ⟨_, h⟩)
              · exact Or.inr (Or.inr (Or.inl h))
              · exact Or.inr (Or.inr (Or.inr h))
            · right; left; refine ⟨"No memories found", ?_⟩
              simp [get_last_memory, hu, hc, hres, hemp]

/-- Output shape of `search_memory`: JSON hits on success, a bare
string starting with `"Error"` on failure. -/
theorem search_out_shape (resolve : String → String → Option (User × App))
    (acl : Mem → Nat → Bool) (ctx : Ctx) (w : World) (q : String) :
    (∃ hits, (search_memory resolve acl ctx w q).2 = .searchHits hits) ∨
    (∃ s, (search_memory resolve acl ctx w q).2 = .plain ("Error" ++ s)) := by
  rcases ctx with ⟨uo, co⟩
  cases uo with
  | none =>
    right; refine ⟨": user_id not provided", ?_⟩
    simp [search_memory]
  | some u =>
    by_cases hu : u = ""
    · right; refine ⟨": user_id not provided", ?_⟩
      simp [search_memory, hu]
    · cases co with
      | none =>
        right; refine ⟨": client_name not provided", ?_⟩
        simp [search_memory, hu]
      | some c =>
        by_cases hc : c = ""
        · right; refine ⟨": client_name not provided", ?_⟩
          simp [search_memory, hu, hc]
        · rcases hres : resolve u c with _ | ⟨user, app⟩
          · right; refine ⟨" searching memory: " ++ attributeErrorMsg, ?_⟩
            simp [search_memory, hu, hc, hres, attributeErrorMsg]
          · left
            simp only [search_memory, if_neg hu, if_neg hc, hres]
            exact ⟨_, rfl⟩

/-- Output shape of `list_memories`: JSON items on success, a bare
string starting with `"Error"` on failure. -/
theorem list_out_shape (resolve : String → String → Option (User × App))
    (acl : Mem → Nat → Bool) (ctx : Ctx) (w : World)
    (items : List Mem0Item) :
    (∃ its, (list_memories resolve acl ctx w items).2 = .listItems its) ∨
    (∃ s, (list_memories resolve acl ctx w items).2 = .plain ("Error" ++ s)) := by
  rcases ctx with ⟨uo, co⟩
  cases uo with
  | none =>
    right; refine ⟨": user_id not provided", ?_⟩
    simp [list_memories]
  | some u =>
    by_cases hu : u = ""
    · right; refine ⟨": user_id not provided", ?_⟩
      simp [list_memories, hu]
    · cases co with
      | none =>
        right; refine ⟨": client_name not provided", ?_⟩
        simp [list_memories, hu]
      | some c =>
        by_cases hc : c = ""
        · right; refine ⟨": client_name not provided", ?_⟩
          simp [list_memories, hu, hc]
        · rcases hres : resolve u c with _ | ⟨user, app⟩
          · right; refine ⟨" getting memories: " ++ attributeErrorMsg, ?_⟩
            simp [list_memories, hu, hc, hres, attributeErrorMsg]
          · left
            simp only [list_memories, if_neg hu, if_neg hc, hres]
            exact ⟨_, rfl⟩

/-- Output shape of `delete_all_memories`: always a bare string —
either the fixed success message or a string starting with `"Error"`. -/
theorem delete_out_shape (resolve : String → String → Option (User × App))
    (acl : Mem → Nat → Bool) (now : Nat) (ctx : Ctx) (w : World) :
    ((delete_all_memories resolve acl now ctx w).2 =
      .plain "Successfully deleted all memories") ∨
    (∃ s, (delete_all_memories resolve acl now ctx w).2 =
      .plain ("Error" ++ s)) := by
  rcases ctx with ⟨uo, co⟩
  cases uo with
  | none =>
    right; refine ⟨": user_id not provided", ?_⟩
    simp [delete_all_memories]
  | some u =>
    by_cases hu : u = ""
    · right; refine ⟨": user_id not provided", ?_⟩
      simp [delete_all_memories, hu]
    · cases co with
      | none =>
        right; refine ⟨": client_name not provided", ?_⟩
        simp [delete_all_memories, hu]
      | some c =>
        by_cases hc : c = ""
        · right; refine ⟨": client_name not provided", ?_⟩
          simp [delete_all_memories, hu, hc]
        · rcases hres : resolve u c with _ | ⟨user, app⟩
          · right; refine ⟨" deleting memories: " ++ attributeErrorMsg, ?_⟩
            simp [delete_all_memories, hu, hc, hres, attributeErrorMsg]
          · left
            simp only [delete_all_memories, if_neg hu, if_neg hc, hres]

/-- C9 counterexample: the claim says every public operation returns a
result serialized as indented JSON with error payloads shaped
`{"error": msg}`.  But `search_memory` with a missing user id returns
the bare string `"Error: user_id not provided"` (no JSON object, not
the error-JSON shape), and `delete_all_memories` returns a bare
success string. -/
theorem c9_counterexample_plain_strings :
    (search_memory resolve1 aclAllowAll ctxNoUid w1 "q").2 =
      .plain "Error: user_id not provided" ∧
    (∀ m, Out.plain "Error: user_id not provided" ≠ Out.errJson m) ∧
    (delete_all_memories resolve1 aclAllowAll 0 ctx1 w1).2 =
      .plain "Successfully deleted all memories" := by
  refine ⟨rfl, ?_, rfl⟩
  intro m h
  exact Out.noConfusion h

/-- C9 (amended): no public operation raises — each one totalizes into
a returned result; `add_memories` and `get_last_memory` always return
indented JSON (errors shaped as an error object); `search_memory` and
`list_memories` return JSON on success but bare `"Error..."` strings
on failure; `delete_all_memories` returns a bare string in all
cases. -/
theorem c9_amended_error_boundary
    (resolve : String → String → Option (User × App))
    (acl : Mem → Nat → Bool) (ctx : Ctx) (w : World) (text : String)
    (ofn : Option String) (freshId : String) (now : Nat)
    (resp : Except String (Option (List Mem0Result)))
    (items itemsL : List Mem0Item) (q : String) :
    ((∃ m, (add_memories resolve ctx w text ofn freshId now resp).2 =
        .errJson m) ∨
     (∃ r, (add_memories resolve ctx w text ofn freshId now resp).2 =
        .addResp r)) ∧
    ((∃ m, (get_last_memory resolve acl ctx w items).2 = .errJson m) ∨
     (∃ m, (get_last_memory resolve acl ctx w items).2 = .msgJson m) ∨
     (∃ a b content mid ptr,
       (get_last_memory resolve acl ctx w items).2 =
         .fileContent a b content mid ptr) ∨
     (∃ it, (get_last_memory resolve acl ctx w items).2 = .memItem it)) ∧
    ((∃ hits, (search_memory resolve acl ctx w q).2 = .searchHits hits) ∨
     (∃ s, (search_memory resolve acl ctx w q).2 = .plain ("Error" ++ s))) ∧
    ((∃ its, (list_memories resolve acl ctx w itemsL).2 = .listItems its) ∨
     (∃ s, (list_memories resolve acl ctx w itemsL).2 =
        .plain ("Error" ++ s))) ∧
    (((delete_all_memories resolve acl now ctx w).2 =
        .plain "Successfully deleted all memories") ∨
     (∃ s, (delete_all_memories resolve acl now ctx w).2 =
        .plain ("Error" ++ s))) :=
  ⟨add_out_shape resolve ctx w text ofn freshId now resp,
   get_last_out_shape resolve acl ctx w items,
   search_out_shape resolve acl ctx w q,
   list_out_shape resolve acl ctx w itemsL,
   delete_out_shape resolve acl now ctx w⟩

/-- C4 counterexample: the claim reads "externalized if and only if an
original filename is supplied or the text's length exceeds 4000".  A
supplied but empty filename (`original_filename=""`) is falsy in the
Python test `if original_filename or len(text) > ...`, so a short text
with an empty filename is NOT externalized although a filename was
supplied — the biconditional fails at this input. -/
theorem c4_counterexample_empty_filename :
    ¬ (((prepare "u1" "app1" "hi" (some "") "F" []).meta.pointer.isSome = true) ↔
       ((some "" : Option String).isSome = true ∨
        FILE_CONTENT_THRESHOLD < "hi".length)) := by
  decide

/-- C4 (amended): the payload is externalized iff a non-empty original
filename is supplied or the text length exceeds 4000; when
externalized, `size_bytes` is the UTF-8 byte count and `char_length`
the character count of the original text, and the text sent to the
vector client is the short description; otherwise the text goes out
verbatim, the metadata carries no pointer fields and no file is
written. -/
theorem c4_externalization_amended (u c text : String) (ofn : Option String)
    (freshId : String) (fs : Fs) :
    ((prepare u c text ofn freshId fs).meta.pointer.isSome
        = (truthy ofn || text.length > FILE_CONTENT_THRESHOLD)) ∧
    (∀ ptr, (prepare u c text ofn freshId fs).meta.pointer = some ptr →
        ptr.sizeBytes = text.utf8ByteSize ∧ ptr.charLength = text.length ∧
        (prepare u c text ofn freshId fs).textToStore =
          "Stored file: " ++ ptr.originalFilename ++ " (Content pointer)") ∧
    ((prepare u c text ofn freshId fs).meta.pointer = none →
        (prepare u c text ofn freshId fs).textToStore = text ∧
        (prepare u c text ofn freshId fs).fs = fs) := by
  rcases hdec : truthy ofn || text.length > FILE_CONTENT_THRESHOLD with _ | _
  · simp [prepare, hdec]
  · rcases prepare_ext u c text ofn freshId fs hdec with
      ⟨ptr, hp, hpfs, htext, hsz, hcl⟩
    refine ⟨by rw [hp]; rfl, ?_, ?_⟩
    · intro ptr' hptr'
      rw [hp] at hptr'
      injection hptr' with h
      subst h
      exact ⟨hsz, hcl, htext⟩
    · intro hnone
      rw [hp] at hnone
      exact absurd hnone (by simp)

/-- Witness for C4's amended theorem at a concrete externalizing input. -/
theorem c4_witness :
    (prepare "u1" "app1" "hello" (some "notes.txt") "F" []).meta.pointer =
      some { originalFilename := "notes.txt", storedFilename := "F_notes.txt",
             filePathInContainer :=
               "/usr/src/openmemory/user_files/u1/F_notes.txt",
             sizeBytes := 5, charLength := 5 } ∧
    (5 = ("hello" : String).utf8ByteSize ∧ 5 = ("hello" : String).length ∧
      (prepare "u1" "app1" "hello" (some "notes.txt") "F" []).textToStore =
        "Stored file: " ++ "notes.txt" ++ " (Content pointer)") :=
  ⟨by decide,
   (c4_externalization_amended "u1" "app1" "hello" (some "notes.txt") "F"
      []).2.1
     { originalFilename := "notes.txt", storedFilename := "F_notes.txt",
       filePathInContainer :=
         "/usr/src/openmemory/user_files/u1/F_notes.txt",
       sizeBytes := 5, charLength := 5 } (by decide)⟩

/-- C8: the stored filename synthesized during externalization is the
fresh id joined by an underscore with the base-name component of the
supplied filename; the base name contains no path separator, so the
stored name (a suffix extension of the base name) contains no
separator and is not `..` or `.` — the written file stays inside the
per-user directory.  In particular `"../../etc/passwd"` sanitizes to
`"passwd"`. -/
theorem c8_filename_sanitization (f uid c text freshId : String) (fs : Fs)
    (hf : f ≠ "") (hid : '/' ∉ freshId.data) :
    ∃ ptr, (prepare uid c text (some f) freshId fs).meta.pointer = some ptr ∧
      ptr.storedFilename = freshId ++ "_" ++ posixName f ∧
      '/' ∉ (posixName f).data ∧
      (∃ pre, ptr.storedFilename.data = pre ++ (posixName f).data) ∧
      '/' ∉ ptr.storedFilename.data ∧
      ptr.storedFilename ≠ ".." ∧ ptr.storedFilename ≠ "." ∧
      posixName "../../etc/passwd" = "passwd" := by
  have hdec : (truthy (some f) || text.length > FILE_CONTENT_THRESHOLD) = true := by
    simp [truthy, hf]
  have hunders : '_' ∈ (freshId ++ "_" ++ posixName f).data := by
    rw [data_append, data_append]
    refine List.mem_append_left _ (List.mem_append_right _ ?_)
    decide
  have hnoslash : '/' ∉ (freshId ++ "_" ++ posixName f).data := by
    rw [data_append, data_append]
    intro hmem
    rcases List.mem_append.mp hmem with h | h
    · rcases List.mem_append.mp h with h2 | h2
      · exact hid h2
      · exact absurd h2 (by decide)
    · exact posixName_no_slash f h
  unfold prepare
  simp only [hdec, if_true, if_neg hf]
  refine ⟨_, rfl, rfl, posixName_no_slash f, ⟨(freshId ++ "_").data, ?_⟩,
    hnoslash, ?_, ?_, by decide⟩
  · show (freshId ++ "_" ++ posixName f).data =
      (freshId ++ "_").data ++ (posixName f).data
    rw [data_append]
  · show freshId ++ "_" ++ posixName f ≠ ".."
    intro h
    rw [h] at hunders
    exact absurd hunders (by decide)
  · show freshId ++ "_" ++ posixName f ≠ "."
    intro h
    rw [h] at hunders
    exact absurd hunders (by decide)

/-- Witness for C8 at the path-traversal input from the spec. -/
theorem c8_witness :
    ∃ ptr, (prepare "u1" "app1" "body" (some "../../etc/passwd") "ab12"
        []).meta.pointer = some ptr ∧
      ptr.storedFilename = "ab12" ++ "_" ++ posixName "../../etc/passwd" ∧
      '/' ∉ (posixName "../../etc/passwd").data ∧
      (∃ pre, ptr.storedFilename.data =
        pre ++ (posixName "../../etc/passwd").data) ∧
      '/' ∉ ptr.storedFilename.data ∧
      ptr.storedFilename ≠ ".." ∧ ptr.storedFilename ≠ "." ∧
      posixName "../../etc/passwd" = "passwd" :=
  c8_filename_sanitization "../../etc/passwd" "u1" "app1" "body" "ab12" []
    (by decide) (by decide)

def db0 : Db := { memories := [], history := [], accessLogs := [] }

def w0 : World := { db := db0, fs := [], store := [] }

def meta0 : Metadata :=
  { sourceApp := "openmemory", mcpClient := "app1", pointer := none }

/-- Mem0 results with one reconcilable event (`ADD` id 9), one result
with a falsy memory, and one unknown tag. -/
def demoResults : List Mem0Result :=
  [{ id := some 9, memory := some "hello fact", event := "ADD" },
   { id := some 9, memory := some "", event := "ADD" },
   { id := some 11, memory := some "x", event := "NOOP" }]

/-- C3: the reconciliation case analysis.  `ADD` or `UPDATE` with no
existing ledger row creates the row (`previous_state = deleted`,
`new_state = active`); `ADD` or `UPDATE` with an existing row updates
content/metadata and reactivates it (`previous_state` = the row's
current state); any other event tag is skipped with no history row and
no failure; every non-skipped branch appends exactly one
`MemoryStatusHistory` row. -/
theorem c3_reconciliation_case_analysis (userId appId : Nat)
    (meta : Metadata) (now : Nat) (db : Db) (mid : Nat) (content : String)
    (ev : String) (hcont : content ≠ "") :
    ((ev = "ADD" ∨ ev = "UPDATE") →
      db.memories.find? (fun m => m.id == mid) = none →
      processResult userId appId meta now db
          { id := some mid, memory := some content, event := ev } =
        { db with
          memories := db.memories ++
            [{ id := mid, userId := userId, appId := appId,
               content := content, metadata := meta,
               state := .active, updatedAt := none, deletedAt := none }]
          history := db.history ++
            [{ memoryId := mid, changedBy := userId,
               oldState := .deleted, newState := .active }] }) ∧
    (∀ m, (ev = "ADD" ∨ ev = "UPDATE") →
      db.memories.find? (fun x => x.id == mid) = some m →
      processResult userId appId meta now db
          { id := some mid, memory := some content, event := ev } =
        { db with
          memories := db.memories.map (fun x =>
            if x.id == mid then
              { x with state := .active, content := content,
                       metadata := meta, updatedAt := some now }
            else x)
          history := db.history ++
            [{ memoryId := mid, changedBy := userId,
               oldState := m.state, newState := .active }] }) ∧
    (ev ≠ "ADD" → ev ≠ "UPDATE" →
      processResult userId appId meta now db
          { id := some mid, memory := some content, event := ev } = db) ∧
    ((ev = "ADD" ∨ ev = "UPDATE") →
      (processResult userId appId meta now db
          { id := some mid, memory := some content, event := ev }).history.length
        = db.history.length + 1) := by
  refine ⟨?_, ?_, ?_, ?_⟩
  · rintro (hev | hev) hfind <;> subst hev <;>
      simp [processResult, hcont, hfind]
  · rintro m (hev | hev) hfind <;> subst hev <;>
      simp [processResult, hcont, hfind]
  · intro h1 h2
    simp [processResult, hcont, h1, h2]
  · rintro (hev | hev) <;> subst hev <;>
      rcases hfind : db.memories.find? (fun m => m.id == mid) with _ | m <;>
      simp [processResult, hcont, hfind]

/-- Witness for C3: a fresh `ADD` event at a concrete empty ledger. -/
theorem c3_witness :
    processResult 1 7 meta0 0 db0
        { id := some 9, memory := some "hi", event := "ADD" } =
      { db0 with
        memories := db0.memories ++
          [{ id := 9, userId := 1, appId := 7, content := "hi",
             metadata := meta0, state := .active,
             updatedAt := none, deletedAt := none }]
        history := db0.history ++
          [{ memoryId := 9, changedBy := 1,
             oldState := .deleted, newState := .active }] } :=
  (c3_reconciliation_case_analysis 1 7 meta0 0 db0 9 "hi" "ADD"
      (by decide)).1 (Or.inl rfl) rfl

/-- C2: ingest atomicity.  With a valid context and an active app, an
`add_memories` call whose mem0 response contains `N` reconcilable
events commits a ledger with exactly `N` new history rows and returns
the serialized response; if the mem0 call throws, the committed ledger
is unchanged (rollback) and an error result wrapping the cause is
returned. -/
theorem c2_ingest_atomicity (resolve : String → String → Option (User × App))
    (u c text : String) (ofn : Option String) (freshId : String)
    (now : Nat) (w : World)
    (resp : Except String (Option (List Mem0Result)))
    (user : User) (app : App)
    (hu : u ≠ "") (hc : c ≠ "")
    (hres : resolve u c = some (user, app)) (hact : app.isActive = true) :
    (∀ rs, resp = .ok (some rs) →
      (add_memories resolve ⟨some u, some c⟩ w text ofn freshId now
          resp).1.db.history.length
        = w.db.history.length + (rs.filter reconcilable).length ∧
      (add_memories resolve ⟨some u, some c⟩ w text ofn freshId now resp).2 =
        .addResp (some rs)) ∧
    (∀ e, resp = .error e →
      (add_memories resolve ⟨some u, some c⟩ w text ofn freshId now
          resp).1.db = w.db ∧
      (add_memories resolve ⟨some u, some c⟩ w text ofn freshId now resp).2 =
        .errJson ("Error adding memory: " ++ e)) := by
  constructor
  · intro rs hrs
    subst hrs
    have hred : add_memories resolve ⟨some u, some c⟩ w text ofn freshId now
        (.ok (some rs)) =
        ({ w with
            db := rs.foldl
              (processResult user.id app.id
                (prepare u c text ofn freshId w.fs).meta now) w.db
            fs := (prepare u c text ofn freshId w.fs).fs },
         .addResp (some rs)) := by
      simp [add_memories, if_neg hu, if_neg hc, hres, hact]
    rw [hred]
    exact ⟨processAll_history_length _ _ _ _ rs w.db, rfl⟩
  · intro e he
    subst he
    have hred : add_memories resolve ⟨some u, some c⟩ w text ofn freshId now
        (.error e) =
        ({ w with fs := (prepare u c text ofn freshId w.fs).fs },
         .errJson ("Error adding memory: " ++ e)) := by
      simp [add_memories, if_neg hu, if_neg hc, hres, hact]
    rw [hred]
    exact ⟨rfl, rfl⟩

/-- Witness for C2: a concrete ingest with exactly one reconcilable
event among three results. -/
theorem c2_witness :
    (add_memories resolve1 ⟨some "u1", some "app1"⟩ w0 "hello" none "F" 0
        (.ok (some demoResults))).1.db.history.length =
      w0.db.history.length + (demoResults.filter reconcilable).length ∧
    (add_memories resolve1 ⟨some "u1", some "app1"⟩ w0 "hello" none "F" 0
        (.ok (some demoResults))).2 = .addResp (some demoResults) :=
  (c2_ingest_atomicity resolve1 "u1" "app1" "hello" none "F" 0 w0
      (.ok (some demoResults)) ⟨1⟩ ⟨7, "app1", true⟩ (by decide) (by decide)
      rfl rfl).1 demoResults rfl

/-- C7: after a successful `delete_all_memories` call, every ledger
memory of the calling user that passed the Access Control Filter has
state `deleted` with a non-null `deleted_at`, exactly one new
`active` → `deleted` history row and exactly one new `delete_all`
access-log row exist for it, and the blob store (backing files) is
untouched. -/
theorem c7_delete_all_bulk (resolve : String → String → Option (User × App))
    (acl : Mem → Nat → Bool) (now : Nat) (u c : String) (w : World)
    (user : User) (app : App)
    (hu : u ≠ "") (hc : c ≠ "")
    (hres : resolve u c = some (user, app))
    (hnodup : (w.db.memories.map (·.id)).Nodup) :
    (delete_all_memories resolve acl now ⟨some u, some c⟩ w).2 =
      .plain "Successfully deleted all memories" ∧
    (delete_all_memories resolve acl now ⟨some u, some c⟩ w).1.fs = w.fs ∧
    ∀ m ∈ w.db.memories, m.userId = user.id → acl m app.id = true →
      ({ m with state := .deleted, deletedAt := some now } : Mem) ∈
        (delete_all_memories resolve acl now ⟨some u, some c⟩ w).1.db.memories ∧
      (delete_all_memories resolve acl now
          ⟨some u, some c⟩ w).1.db.history.count
          { memoryId := m.id, changedBy := user.id,
            oldState := .active, newState := .deleted } =
        w.db.history.count
          { memoryId := m.id, changedBy := user.id,
            oldState := .active, newState := .deleted } + 1 ∧
      (delete_all_memories resolve acl now
          ⟨some u, some c⟩ w).1.db.accessLogs.count
          { memoryId := m.id, appId := app.id, accessType := "delete_all" } =
        w.db.accessLogs.count
          { memoryId := m.id, appId := app.id,
            accessType := "delete_all" } + 1 := by
  have hred : delete_all_memories resolve acl now ⟨some u, some c⟩ w =
      ({ db := (accessibleIds acl w.db user.id app.id).foldl
            (deleteOne user.id app.id now) w.db
         fs := w.fs
         store := w.store.filter (fun p =>
           !(accessibleIds acl w.db user.id app.id).contains p.id) },
       .plain "Successfully deleted all memories") := by
    simp [delete_all_memories, if_neg hu, if_neg hc, hres]
  refine ⟨by rw [hred], by rw [hred], ?_⟩
  intro m hm hmu hmacl
  have hmem_ids : m.id ∈ accessibleIds acl w.db user.id app.id := by
    unfold accessibleIds
    apply List.mem_map_of_mem
    apply List.mem_filter.mpr
    refine ⟨List.mem_filter.mpr ⟨hm, ?_⟩, hmacl⟩
    simp [hmu]
  have hids_nodup : (accessibleIds acl w.db user.id app.id).Nodup := by
    unfold accessibleIds
    exact hnodup.sublist
      (((List.filter_sublist _).trans (List.filter_sublist _)).map _)
  refine ⟨?_, ?_, ?_⟩
  · rw [hred]
    show _ ∈ ((accessibleIds acl w.db user.id app.id).foldl
      (deleteOne user.id app.id now) w.db).memories
    rw [foldl_deleteOne_memories]
    refine List.mem_map.mpr ⟨m, hm, ?_⟩
    simp [hmem_ids]
  · rw [hred]
    show (((accessibleIds acl w.db user.id app.id).foldl
        (deleteOne user.id app.id now) w.db).history).count _ = _
    rw [foldl_deleteOne_history, List.count_append]
    have hinj : Function.Injective (fun i =>
        ({ memoryId := i, changedBy := user.id,
           oldState := .active,
           newState := .deleted } : MemoryStatusHistory)) := by
      intro a b h
      simpa using h
    rw [List.count_map_of_injective _ _ hinj m.id,
      List.count_eq_one_of_mem hids_nodup hmem_ids]
  · rw [hred]
    show (((accessibleIds acl w.db user.id app.id).foldl
        (deleteOne user.id app.id now) w.db).accessLogs).count _ = _
    rw [foldl_deleteOne_logs, List.count_append]
    have hinj : Function.Injective (fun i =>
        ({ memoryId := i, appId := app.id,
           accessType := "delete_all" } : MemoryAccessLog)) := by
      intro a b h
      simpa using h
    rw [List.count_map_of_injective _ _ hinj m.id,
      List.count_eq_one_of_mem hids_nodup hmem_ids]

/-- Witness for C7: the single accessible memory of `w1` is marked
deleted with exactly one history and one access-log row. -/
theorem c7_witness :
    (delete_all_memories resolve1 aclAllowAll 99 ⟨some "u1", some "app1"⟩
        w1).2 = .plain "Successfully deleted all memories" ∧
    (delete_all_memories resolve1 aclAllowAll 99 ⟨some "u1", some "app1"⟩
        w1).1.fs = w1.fs ∧
    ({ mem5 with state := .deleted, deletedAt := some 99 } : Mem) ∈
      (delete_all_memories resolve1 aclAllowAll 99 ⟨some "u1", some "app1"⟩
        w1).1.db.memories ∧
    (delete_all_memories resolve1 aclAllowAll 99 ⟨some "u1", some "app1"⟩
        w1).1.db.history.count
        { memoryId := mem5.id, changedBy := 1,
          oldState := .active, newState := .deleted } =
      w1.db.history.count
        { memoryId := mem5.id, changedBy := 1,
          oldState := .active, newState := .deleted } + 1 ∧
    (delete_all_memories resolve1 aclAllowAll 99 ⟨some "u1", some "app1"⟩
        w1).1.db.accessLogs.count
        { memoryId := mem5.id, appId := 7, accessType := "delete_all" } =
      w1.db.accessLogs.count
        { memoryId := mem5.id, appId := 7, accessType := "delete_all" } + 1 := by
  have h := c7_delete_all_bulk resolve1 aclAllowAll 99 "u1" "app1" w1
    ⟨1⟩ ⟨7, "app1", true⟩ (by decide) (by decide) rfl (by decide)
  have hm := h.2.2 mem5 (List.mem_cons_self _ _) rfl rfl
  exact ⟨h.1, h.2.1, hm.1, hm.2.1, hm.2.2⟩

/-- C6: when the memory selected by `get_last_memory` is a file
pointer whose backing file is missing or unreadable, the operation
does not fail: it returns the mem0 pointer record itself (logging the
pointer check), not file content and not an error. -/
theorem c6_missing_file_returns_pointer
    (resolve : String → String → Option (User × App))
    (acl : Mem → Nat → Bool) (u c : String) (w : World)
    (items pre rest : List Mem0Item) (it : Mem0Item)
    (user : User) (app : App) (mid : Nat) (m : Mem) (ptr : FilePointerData)
    (hu : u ≠ "") (hc : c ≠ "")
    (hres : resolve u c = some (user, app))
    (hsort : sortByCreatedDesc items = pre ++ it :: rest)
    (hpre : ∀ j ∈ pre, selectItem w.db acl user.id app.id j = none)
    (hsel : selectItem w.db acl user.id app.id it = some (mid, m))
    (hptr : m.metadata.pointer = some ptr)
    (hfile : fsRead w.fs ptr.filePathInContainer = none) :
    (get_last_memory resolve acl ⟨some u, some c⟩ w items).2 = .memItem it ∧
    (get_last_memory resolve acl ⟨some u, some c⟩ w items).1.db.accessLogs =
      w.db.accessLogs ++
        [{ memoryId := mid, appId := app.id,
           accessType := "get_last_pointer_check" }] := by
  have hne : items ≠ [] := by
    intro h
    rw [h] at hsort
    simp [sortByCreatedDesc] at hsort
  have hemp : items.isEmpty = false := List.isEmpty_eq_false.mpr hne
  have hloop : getLastLoop w.db acl w.fs user.id app.id
      (sortByCreatedDesc items) =
      ([{ memoryId := mid, appId := app.id,
          accessType := "get_last_pointer_check" }],
       resolvePointer w.fs m it mid) := by
    rw [hsort,
      getLastLoop_append_skip w.db acl w.fs user.id app.id pre (it :: rest)
        hpre,
      getLastLoop_select w.db acl w.fs user.id app.id it rest mid m hsel]
  have hresv : resolvePointer w.fs m it mid = .memItem it := by
    simp [resolvePointer, hptr, hfile]
  have hred : get_last_memory resolve acl ⟨some u, some c⟩ w items =
      ({ w with db := { w.db with accessLogs := w.db.accessLogs ++
          [{ memoryId := mid, appId := app.id,
             accessType := "get_last_pointer_check" }] } },
       .memItem it) := by
    simp [get_last_memory, if_neg hu, if_neg hc, hres, hemp, hloop, hresv]
  rw [hred]
  exact ⟨rfl, rfl⟩

def ptr0 : FilePointerData :=
  { originalFilename := "notes.txt", storedFilename := "F_notes.txt",
    filePathInContainer := "/usr/src/openmemory/user_files/u1/F_notes.txt",
    sizeBytes := 4, charLength := 4 }

def memPtr : Mem :=
  { id := 6, userId := 1, appId := 7,
    content := "Stored file: notes.txt (Content pointer)",
    metadata := { sourceApp := "openmemory", mcpClient := "app1",
                  pointer := some ptr0 },
    state := .active, updatedAt := none, deletedAt := none }

def wPtr : World :=
  { db := { memories := [memPtr], history := [], accessLogs := [] }
    fs := []
    store := [] }

def itemPtr : Mem0Item :=
  { id := some 6, createdAt := "2024-01-01", hash := none,
    data := "Stored file: notes.txt (Content pointer)" }

/-- Witness for C6: one pointer memory whose backing file is absent
from the (empty) blob store. -/
theorem c6_witness :
    (get_last_memory resolve1 aclAllowAll ⟨some "u1", some "app1"⟩ wPtr
        [itemPtr]).2 = .memItem itemPtr ∧
    (get_last_memory resolve1 aclAllowAll ⟨some "u1", some "app1"⟩ wPtr
        [itemPtr]).1.db.accessLogs =
      wPtr.db.accessLogs ++
        [{ memoryId := 6, appId := 7,
           accessType := "get_last_pointer_check" }] :=
  c6_missing_file_returns_pointer resolve1 aclAllowAll "u1" "app1" wPtr
    [itemPtr] [] [] itemPtr ⟨1⟩ ⟨7, "app1", true⟩ 6 memPtr ptr0
    (by decide) (by decide) rfl rfl (by simp) (by decide) rfl rfl

/-- The ledger row created by the reconciliation of a fresh `ADD`
event (used to state the round-trip theorem). -/
def newLedgerRow (evId userId appId : Nat) (content : String)
    (meta : Metadata) : Mem :=
  { id := evId, userId := userId, appId := appId, content := content,
    metadata := meta, state := .active, updatedAt := none,
    deletedAt := none }

/-- C5 (amended): round trip for carriage-return-free texts.
Externalizing a text `T` that contains no `'\r'` through
`add_memories` and then resolving the most recent memory with
`get_last_memory` (where the first sorted mem0 item selects the
freshly created pointer row and the backing file is still present)
returns file content exactly equal to `T`.  For texts containing a
carriage return the text-mode read's universal-newline translation
changes the content (see the counterexample). -/
theorem c5_round_trip (resolve : String → String → Option (User × App))
    (acl : Mem → Nat → Bool) (u c text rmem freshId : String)
    (ofn : Option String) (now evId : Nat) (user : User) (app : App)
    (w : World) (items : List Mem0Item) (it : Mem0Item)
    (rest : List Mem0Item)
    (hu : u ≠ "") (hc : c ≠ "")
    (hres : resolve u c = some (user, app))
    (hact : app.isActive = true)
    (hext : (truthy ofn || text.length > FILE_CONTENT_THRESHOLD) = true)
    (hrmem : rmem ≠ "")
    (hcr : '\r' ∉ text.data)
    (hfresh : ∀ m ∈ w.db.memories, m.id ≠ evId)
    (hsort : sortByCreatedDesc items = it :: rest)
    (hid : it.id = some evId)
    (hacl : ∀ m, acl m app.id = true) :
    ∃ ptr, (prepare u c text ofn freshId w.fs).meta.pointer = some ptr ∧
      (get_last_memory resolve acl ⟨some u, some c⟩
          (add_memories resolve ⟨some u, some c⟩ w text ofn freshId now
            (.ok (some [{ id := some evId, memory := some rmem,
                          event := "ADD" }]))).1
          items).2 =
        .fileContent ptr.originalFilename ptr.storedFilename text evId ptr := by
  obtain ⟨ptr, hp, hpfs, htext, hsz, hcl⟩ :=
    prepare_ext u c text ofn freshId w.fs hext
  refine ⟨ptr, hp, ?_⟩
  have hne : items ≠ [] := by
    intro h
    rw [h] at hsort
    simp [sortByCreatedDesc] at hsort
  have hemp : items.isEmpty = false := List.isEmpty_eq_false.mpr hne
  have hfind0 : w.db.memories.find? (fun m => m.id == evId) = none := by
    apply List.find?_eq_none.mpr
    intro x hx
    simp [hfresh x hx]
  have hadd : (add_memories resolve ⟨some u, some c⟩ w text ofn freshId now
      (.ok (some [{ id := some evId, memory := some rmem,
                    event := "ADD" }]))).1 =
      { db := { w.db with
          memories := w.db.memories ++
            [newLedgerRow evId user.id app.id rmem
              (prepare u c text ofn freshId w.fs).meta]
          history := w.db.history ++
            [{ memoryId := evId, changedBy := user.id,
               oldState := .deleted, newState := .active }] }
        fs := (prepare u c text ofn freshId w.fs).fs
        store := w.store } := by
    simp [add_memories, if_neg hu, if_neg hc, hres, hact, processResult,
      hrmem, hfind0, newLedgerRow]
  rw [hadd]
  have hfindpre : w.db.memories.find?
      (fun x => x.id == evId && x.userId == user.id) = none := by
    apply List.find?_eq_none.mpr
    intro x hx
    simp [hfresh x hx]
  have hfind1 : (w.db.memories ++
      [newLedgerRow evId user.id app.id rmem
        (prepare u c text ofn freshId w.fs).meta]).find?
      (fun x => x.id == evId && x.userId == user.id) =
      some (newLedgerRow evId user.id app.id rmem
        (prepare u c text ofn freshId w.fs).meta) := by
    rw [find?_append_of_none _ _ _ hfindpre]
    simp [newLedgerRow]
  have hsel : selectItem
      { w.db with
        memories := w.db.memories ++
          [newLedgerRow evId user.id app.id rmem
            (prepare u c text ofn freshId w.fs).meta]
        history := w.db.history ++
          [{ memoryId := evId, changedBy := user.id,
             oldState := .deleted, newState := .active }] }
      acl user.id app.id it =
      some (evId, newLedgerRow evId user.id app.id rmem
        (prepare u c text ofn freshId w.fs).meta) := by
    simp only [selectItem, hid]
    rw [hfind1]
    simp [hacl]
  have hread : fsRead (prepare u c text ofn freshId w.fs).fs
      ptr.filePathInContainer = some text := by
    rw [hpfs]
    simp [fsRead]
  have hresv : resolvePointer (prepare u c text ofn freshId w.fs).fs
      (newLedgerRow evId user.id app.id rmem
        (prepare u c text ofn freshId w.fs).meta) it evId =
      .fileContent ptr.originalFilename ptr.storedFilename text evId ptr := by
    simp only [resolvePointer, newLedgerRow]
    rw [hp]
    simp [hread, universalNewlines_eq_self text hcr]
  simp only [get_last_memory, if_neg hu, if_neg hc, hres, hemp,
    Bool.false_eq_true, if_false, hsort]
  rw [getLastLoop_select _ _ _ _ _ _ _ _ _ hsel, hresv]

/-- Witness for C5: a concrete 2-character text with a filename is
externalized and read back verbatim. -/
theorem c5_witness :
    ∃ ptr, (prepare "u1" "app1" "hi" (some "notes.txt") "F" []).meta.pointer =
        some ptr ∧
      (get_last_memory resolve1 aclAllowAll ⟨some "u1", some "app1"⟩
          (add_memories resolve1 ⟨some "u1", some "app1"⟩ w0 "hi"
            (some "notes.txt") "F" 0
            (.ok (some [{ id := some 9, memory := some "desc",
                          event := "ADD" }]))).1
          [{ id := some 9, createdAt := "2024", hash := none,
             data := "desc" }]).2 =
        .fileContent ptr.originalFilename ptr.storedFilename "hi" 9 ptr :=
  c5_round_trip resolve1 aclAllowAll "u1" "app1" "hi" "desc" "F"
    (some "notes.txt") 0 9 ⟨1⟩ ⟨7, "app1", true⟩ w0
    [{ id := some 9, createdAt := "2024", hash := none, data := "desc" }]
    { id := some 9, createdAt := "2024", hash := none, data := "desc" } []
    (by decide) (by decide) rfl rfl (by decide) (by decide) (by decide)
    (by simp [w0, db0]) rfl rfl (fun _ => rfl)

/-- C5 counterexample to the unrestricted byte-for-byte claim: the
text `"a\r\nb"` is externalized and written verbatim, but the
text-mode read in `get_last_memory` performs universal-newline
translation, so the returned content is `"a\nb"`, not the original
text. -/
theorem c5_counterexample_carriage_return :
    (get_last_memory resolve1 aclAllowAll ⟨some "u1", some "app1"⟩
        (add_memories resolve1 ⟨some "u1", some "app1"⟩ w0 "a\r\nb"
          (some "notes.txt") "F" 0
          (.ok (some [{ id := some 9, memory := some "desc",
                        event := "ADD" }]))).1
        [{ id := some 9, createdAt := "2024", hash := none,
           data := "desc" }]).2 =
      .fileContent "notes.txt" "F_notes.txt" "a\nb" 9
        { originalFilename := "notes.txt", storedFilename := "F_notes.txt",
          filePathInContainer :=
            "/usr/src/openmemory/user_files/u1/F_notes.txt",
          sizeBytes := 4, charLength := 4 } ∧
    "a\nb" ≠ "a\r\nb" := by
  exact ⟨by decide, by decide⟩

end OpenMemory
